import Mathlib

/-!
Verification of the channel library in `chan.hpp` (namespace `channel`).

The shared state of a channel (`entity<T>`) is a capacity, a closed flag and
a FIFO queue.  Blocking operations are embedded by modelling the body that
runs once the condition-variable wait predicate holds, with the predicate
itself embedded as a separate boolean function; each operation also reports
which condition variables it notifies, since close-vs-send wakeups are part
of what the specification claims.
-/

namespace Chan

/-- `std::numeric_limits<std::size_t>::max()`, the default (unbounded) capacity. -/
def sizeMax : Nat := 2 ^ 64 - 1

/-- `entity<T>`: capacity (default unbounded), the `closed` flag and the FIFO
`queue`.  The two mutexes are the lock discipline and do not carry data. -/
structure entity (T : Type) where
  capacity : Nat := sizeMax
  closed : Bool := false
  queue : List T := []
  deriving Repr, DecidableEq

/-- The two condition variables of `entity<T>`: `produce` (space available,
waited on by senders) and `consume` (item available, waited on by receivers). -/
inductive condvar where
  | produce
  | consume
  deriving Repr, DecidableEq

/-- `basic_chan::is_open`: `!e->closed.load()`. -/
def is_open (e : entity T) : Bool := !e.closed

/-- `basic_chan::close`: store `closed := true` and call `consume.notify_all()`.
The second component lists the condition variables notified — only `consume`;
the `produce` side is not notified by the source. -/
def close (e : entity T) : entity T × List condvar :=
  ({ e with closed := true }, [condvar.consume])

/-- The wait predicate of the `produce.wait` in `sender::send`:
`queue.size() < capacity`.  Note it does not look at `closed`. -/
def sendWait (e : entity T) : Bool := decide (e.queue.length < e.capacity)

/-- Outcome of a `sender::send` call: throw at entry, block on capacity, or
push the value and notify. -/
inductive sendResult (T : Type) where
  | closedAtEntry
  | blocked
  | sent (e : entity T) (notified : List condvar)
  deriving Repr, DecidableEq

/-- `sender::send`: throw `"send on closed channel"` if not open at entry;
otherwise wait until `queue.size() < capacity`, push the value and call
`consume.notify_one()`.  `blocked` is the call still parked in the wait. -/
def send (e : entity T) (v : T) : sendResult T :=
  if !is_open e then .closedAtEntry
  else if sendWait e then .sent { e with queue := e.queue ++ [v] } [condvar.consume]
  else .blocked

/-- A blocked `sender::send` resuming after a wakeup: the lambda given to
`produce.wait` re-checks only `queue.size() < capacity`, not `closed`, and on
success the value is pushed unconditionally. -/
def sendResume (e : entity T) (v : T) : sendResult T :=
  if sendWait e then .sent { e with queue := e.queue ++ [v] } [condvar.consume]
  else .blocked

/-- The entity after a `send` call returns or throws: a send that fails at
entry (or is still blocked) has not touched the queue. -/
def sendState (e : entity T) (v : T) : entity T :=
  match send e v with
  | .sent e₂ _ => e₂
  | _ => e

/-- The wait predicate of the `consume.wait` in `receiver::receive` and
`receiver::operator>>`: `!queue.empty() || !is_open()`. -/
def recvWait (e : entity T) : Bool := !e.queue.isEmpty || !is_open e

/-- `receiver::receive` once its wait predicate holds: empty queue yields the
empty optional; otherwise pop the front, call `produce.notify_one()` and
return the element. -/
def receive (e : entity T) : Option T × entity T × List condvar :=
  match e.queue with
  | [] => (none, e, [])
  | x :: rest => (some x, { e with queue := rest }, [condvar.produce])

/-- `receiver::try_receive`: same body as `receive` but with no wait — it
returns the empty optional immediately when the queue is empty. -/
def try_receive (e : entity T) : Option T × entity T × List condvar :=
  match e.queue with
  | [] => (none, e, [])
  | x :: rest => (some x, { e with queue := rest }, [condvar.produce])

/-- `receiver::operator>>(T &value)` once its wait predicate holds: on an
empty queue return `false` leaving `value` unchanged; otherwise move the
front into `value`, pop, call `produce.notify_one()` and return `true`.
The second component is the reference argument after the call. -/
def opShiftIn (e : entity T) (value : T) : Bool × T × entity T × List condvar :=
  match e.queue with
  | [] => (false, value, e, [])
  | x :: rest => (true, x, { e with queue := rest }, [condvar.produce])

/-- Operations of a sequential history on one channel. -/
inductive Op (T : Type) where
  | send (v : T)
  | receive
  | close
  deriving Repr

/-- Final entity, log of successfully sent values, log of received values. -/
structure runResult (T : Type) where
  final : entity T
  sent : List T
  received : List T
  deriving Repr

/-- Run a sequential history of `send`/`receive`/`close` operations, logging
the values successfully enqueued and the values delivered.  A send that
throws or blocks enqueues nothing; a receive observing closed-and-drained
delivers nothing. -/
def runOps (e : entity T) : List (Op T) → runResult T
  | [] => ⟨e, [], []⟩
  | Op.send v :: rest =>
      match send e v with
      | .sent e₂ _ =>
          let r := runOps e₂ rest
          ⟨r.final, v :: r.sent, r.received⟩
      | _ => runOps e rest
  | Op.receive :: rest =>
      match receive e with
      | (some x, e₂, _) =>
          let r := runOps e₂ rest
          ⟨r.final, r.sent, x :: r.received⟩
      | (none, _, _) => runOps e rest
  | Op.close :: rest => runOps (close e).1 rest

/-- `timer`: the detached thread sends the current time into a fresh
default-capacity channel, then closes it.  The returned receiver shares the
resulting entity. -/
def timer (now : T) : entity T :=
  match send ({ } : entity T) now with
  | .sent e₂ _ => (close e₂).1
  | _ => { }

/-! ## The select engine -/

/-- One draw of `std::uniform_int_distribution<std::size_t>(0, n - 1)` from a
raw random value: some value in `[0, n - 1]`. -/
def dist (n : Nat) (s : Nat) : Nat := s % n

/-- `select::visit_impl<n>::visit`: compile-time recursion comparing `idx`
against `n - 1`; returns the tuple position at which the functor is applied,
or `none` for the `visit_impl<0>` `assert(false)` fallback. -/
def visit_impl : Nat → Nat → Option Nat
  | 0, _ => none
  | n + 1, idx => if idx = n then some n else visit_impl n idx

/-- Persistent state of `select::iterator` (the heterogeneous receiver tuple
embedded as a list of entities): the channels, the `is_closed` array and the
`opened` count. -/
structure selIter (T : Type) where
  chans : List (entity T)
  is_closed : List Bool
  opened : Nat
  deriving Repr, DecidableEq

/-- Per-round locals of `select::iterator::operator++`: the `visited` bitset
and the `not_visited` counter. -/
structure roundLocals where
  visited : List Bool
  not_visited : Nat
  deriving Repr, DecidableEq

/-- How one execution of the polling loop in `operator++` ends: a value
received at an index, loop exit with `opened == 0`, loop exit in nullable
mode with `not_visited == 0` (empty round: the stage is all empty), or the
supply of random draws ran out with the loop still running. -/
inductive roundOutcome (T : Type) where
  | received (idx : Nat) (v : T) (it : selIter T)
  | terminated (it : selIter T)
  | emptyRound (it : selIter T)
  | outOfFuel (it : selIter T)
  deriving Repr, DecidableEq

/-- The iterator state carried by a round outcome. -/
def roundOutcome.iter : roundOutcome T → selIter T
  | .received _ _ it => it
  | .terminated it => it
  | .emptyRound it => it
  | .outOfFuel it => it

/-- Whether the round ended because `opened` reached zero. -/
def roundOutcome.isTerminated : roundOutcome T → Bool
  | .terminated _ => true
  | _ => false

/-- Whether the round ended empty in nullable mode (`not_visited == 0`). -/
def roundOutcome.isEmptyRound : roundOutcome T → Bool
  | .emptyRound _ => true
  | _ => false

/-- The index and value dispatched by the round, if any. -/
def roundOutcome.dispatched : roundOutcome T → Option (Nat × T)
  | .received i v _ => some (i, v)
  | _ => none

/-- The polling loop of `select::iterator::operator++`, driven by an explicit
stream of raw random draws (the real code draws from `std::random_device`
until an exit condition holds; a finite stream that runs out is reported as
`outOfFuel`).  Inner `do { idx = dist(rd); } while (is_closed[idx])` re-draws
are not probes and do not appear in the returned probe trace; each
`try_receive` probe contributes its index.  On a miss, nullable mode marks the
index tried (decrementing `not_visited` the first time), while non-nullable
mode retires the index permanently if the channel is observed closed
(decrementing `opened`); the loop then continues while nothing was received,
`opened > 0`, and (in nullable mode) some index is still untried. -/
def roundLoop (nullable : Bool) (n : Nat) (it : selIter T) (loc : roundLocals) :
    List Nat → roundOutcome T × List Nat
  | [] => (.outOfFuel it, [])
  | s :: rest =>
      let idx := dist n s
      if it.is_closed.getD idx true then
        roundLoop nullable n it loc rest
      else
        let e := it.chans.getD idx { }
        let stg := try_receive e
        let chans₂ := it.chans.set idx stg.2.1
        match stg.1 with
        | some v => (.received idx v { it with chans := chans₂ }, [idx])
        | none =>
            let p : selIter T × roundLocals :=
              if nullable then
                if loc.visited.getD idx false then ({ it with chans := chans₂ }, loc)
                else ({ it with chans := chans₂ },
                      ⟨loc.visited.set idx true, loc.not_visited - 1⟩)
              else if !is_open e then
                (⟨chans₂, it.is_closed.set idx true, it.opened - 1⟩, loc)
              else ({ it with chans := chans₂ }, loc)
            if p.1.opened = 0 then (.terminated p.1, [idx])
            else if nullable && p.2.not_visited = 0 then (.emptyRound p.1, [idx])
            else
              let r := roundLoop nullable n p.1 p.2 rest
              (r.1, idx :: r.2)

/-- One `operator++` call: reset the per-round locals (`visited` all false,
`not_visited = n`, stage cleared) and run the polling loop. -/
def selectRound (nullable : Bool) (n : Nat) (it : selIter T) (stream : List Nat) :
    roundOutcome T × List Nat :=
  roundLoop nullable n it ⟨List.replicate n false, n⟩ stream

/-- The initial `select::iterator` state over the registered channels:
`is_closed` all false and `opened = n`. -/
def selInit (chans : List (entity T)) : selIter T :=
  ⟨chans, List.replicate chans.length false, chans.length⟩

/-- `select::iterator::operator!=(nullptr)`: the iteration continues while
`opened > 0`. -/
def iterNe (it : selIter T) : Bool := decide (0 < it.opened)

/-- The `select::iterator` bookkeeping invariant: the arrays have the
registered length and `opened` counts the non-retired channels. -/
def selInv (n : Nat) (it : selIter T) : Prop :=
  it.chans.length = n ∧ it.is_closed.length = n ∧ it.opened = it.is_closed.count false

/-- Exactly one registered channel is ready: all channels open and none
retired, channel k (in range) holds v at its front, every other queue is
empty. -/
def onlyReady (n k : Nat) (v : T) (it : selIter T) : Prop :=
  it.chans.length = n ∧ it.is_closed = List.replicate n false ∧ it.opened = n ∧
  k < n ∧ (it.chans.getD k { }).queue.head? = some v ∧
  (∀ j, j < n → j ≠ k → (it.chans.getD j { }).queue = []) ∧
  (∀ j, j < n → (it.chans.getD j { }).closed = false)

/-- No registered channel is ready: all channels open and none retired, every
queue empty. -/
def noneReady (n : Nat) (it : selIter T) : Prop :=
  it.chans.length = n ∧ it.is_closed = List.replicate n false ∧ it.opened = n ∧
  0 < n ∧ ∀ j, j < n → (it.chans.getD j { }).queue = []

instance onlyReadyDec [DecidableEq T] (n k : Nat) (v : T) (it : selIter T) :
    Decidable (onlyReady n k v it) := by
  unfold onlyReady
  exact inferInstance

instance noneReadyDec [DecidableEq T] (n : Nat) (it : selIter T) :
    Decidable (noneReady n it) := by
  unfold noneReady
  exact inferInstance

/-- Modelled from the spec: the handler-dispatch select flavor — invoked by
example.cpp as `select<...>({chan, handler}, ..., default_handler)` but with
no implementation under src/ — shares the polling round of
`select::iterator::operator++` (with its tried-this-round bookkeeping); when
the round dispatches a value at index i the matching handler f_i is invoked
with it (recorded as the first component), and when the round ends with every
index tried and nothing ready the no-match handler g is invoked exactly once
for that round (the second component counts its calls). -/
def handlerRound (n : Nat) (it : selIter T) (stream : List Nat) :
    Option (Nat × T) × Nat :=
  match (selectRound true n it stream).1 with
  | .received i v _ => (some (i, v), 0)
  | .emptyRound _ => (none, 1)
  | .terminated _ => (none, 0)
  | .outOfFuel _ => (none, 0)

theorem runOps_closed_no_send (ops : List (Op T)) :
    ∀ e : entity T, e.closed = true →
      (runOps e ops).final.closed = true ∧ (runOps e ops).sent = [] := by
  induction ops with
  | nil => intro e h; exact ⟨h, rfl⟩
  | cons o rest ih =>
    intro e h
    cases o with
    | send v =>
        have hsend : send e v = .closedAtEntry := by
          simp [send, is_open, h]
        simp only [runOps, hsend]
        exact ih e h
    | receive =>
        cases hq : e.queue with
        | nil => simp only [runOps, receive, hq]; exact ih e h
        | cons x xs =>
            simp only [runOps, receive, hq]
            exact ih { e with queue := xs } h
    | close =>
        simp only [runOps, close]
        exact ih { e with closed := true } rfl

theorem runOps_fifo (ops : List (Op T)) :
    ∀ e : entity T,
      (runOps e ops).received ++ (runOps e ops).final.queue
        = e.queue ++ (runOps e ops).sent := by
  induction ops with
  | nil => intro e; simp [runOps]
  | cons o rest ih =>
    intro e
    cases o with
    | send v =>
        by_cases hopen : e.closed = true
        · have hsend : send e v = .closedAtEntry := by simp [send, is_open, hopen]
          simp only [runOps, hsend]
          exact ih e
        · by_cases hcap : sendWait e = true
          · have hsend : send e v
                = .sent { e with queue := e.queue ++ [v] } [condvar.consume] := by
              simp [send, is_open, hopen, hcap]
            simp only [runOps, hsend]
            have := ih { e with queue := e.queue ++ [v] }
            simpa using this
          · have hsend : send e v = .blocked := by
              simp [send, is_open, hopen, hcap]
            simp only [runOps, hsend]
            exact ih e
    | receive =>
        cases hq : e.queue with
        | nil => simp only [runOps, receive, hq]; simpa [hq] using ih e
        | cons x xs =>
            simp only [runOps, receive, hq]
            have := ih { e with queue := xs }
            simpa [hq] using this
    | close =>
        simp only [runOps, close]
        simpa using ih { e with closed := true }

/-- C1: the source contradicts this claim of the spec.  At the concrete state
(capacity 1, open, queue `[0]`) a `send 7` blocks on capacity; `close` then
notifies only the `consume` condition variable, so the blocked sender is not
woken; and once a `receive` frees a slot, the resumed send's wait predicate
holds and the value is pushed into the now-closed channel: the pending send
silently succeeds instead of failing with ChannelClosed. -/
theorem send_blocked_across_close_succeeds :
    send ({ capacity := 1, queue := [0] } : entity Nat) 7 = .blocked ∧
    (close ({ capacity := 1, queue := [0] } : entity Nat)).2 = [condvar.consume] ∧
    condvar.produce ∉ (close ({ capacity := 1, queue := [0] } : entity Nat)).2 ∧
    (receive (close ({ capacity := 1, queue := [0] } : entity Nat)).1).1 = some 0 ∧
    sendResume (receive (close ({ capacity := 1, queue := [0] } : entity Nat)).1).2.1 7
      = .sent { capacity := 1, closed := true, queue := [7] } [condvar.consume] := by
  refine ⟨by decide, by decide, by decide, by decide, by decide⟩

/-- C3: once `receive`'s wait predicate holds, the call returns the empty
(end-of-channel) optional exactly when the channel is closed with an empty
queue; it always returns the queue's front element if there is one, leaving
the tail, so values queued before `close` are delivered before the end is
observed. -/
theorem receive_end_iff (e : entity T) (h : recvWait e = true) :
    ((receive e).1 = none ↔ e.closed = true ∧ e.queue = []) ∧
    (receive e).1 = e.queue.head? ∧
    (receive e).2.1.queue = e.queue.tail ∧
    (receive e).2.1.closed = e.closed ∧
    (receive e).2.1.capacity = e.capacity := by
  cases hq : e.queue with
  | nil =>
      have hclosed : e.closed = true := by
        simpa [recvWait, is_open, hq] using h
      simp [receive, hq, hclosed]
  | cons x xs => simp [receive, hq]

/-- Witness for C3 at a closed channel still holding `[7, 8]`. -/
theorem receive_end_iff_holds :
    ((receive ({ closed := true, queue := [7, 8] } : entity Nat)).1 = none ↔
        ({ closed := true, queue := [7, 8] } : entity Nat).closed = true ∧
        ({ closed := true, queue := [7, 8] } : entity Nat).queue = []) ∧
    (receive ({ closed := true, queue := [7, 8] } : entity Nat)).1
      = ({ closed := true, queue := [7, 8] } : entity Nat).queue.head? ∧
    (receive ({ closed := true, queue := [7, 8] } : entity Nat)).2.1.queue
      = ({ closed := true, queue := [7, 8] } : entity Nat).queue.tail ∧
    (receive ({ closed := true, queue := [7, 8] } : entity Nat)).2.1.closed
      = ({ closed := true, queue := [7, 8] } : entity Nat).closed ∧
    (receive ({ closed := true, queue := [7, 8] } : entity Nat)).2.1.capacity
      = ({ closed := true, queue := [7, 8] } : entity Nat).capacity :=
  receive_end_iff ({ closed := true, queue := [7, 8] } : entity Nat) (by decide)

/-- C4: after `close`, the queue is untouched, every subsequent `send` throws
ChannelClosed at entry leaving the entity unchanged, and no later history of
operations ever logs a successfully sent value. -/
theorem send_post_close (e : entity T) (v : T) (ops : List (Op T)) :
    send (close e).1 v = .closedAtEntry ∧
    sendState (close e).1 v = (close e).1 ∧
    (close e).1.queue = e.queue ∧
    (runOps (close e).1 ops).sent = [] := by
  have hclosed : (close e).1.closed = true := rfl
  have hsend : send (close e).1 v = .closedAtEntry := by
    simp [send, is_open, hclosed]
  refine ⟨hsend, ?_, rfl, (runOps_closed_no_send ops _ hclosed).2⟩
  simp [sendState, hsend]

/-- C5: over any sequential history starting from a fresh channel, the
delivered values followed by what is still queued equal, in order, the
successfully sent values: FIFO order is preserved, every element is delivered
at most once, and a drained channel has delivered exactly the sent multiset. -/
theorem fifo_delivery (cap : Nat) (ops : List (Op T)) :
    (runOps ({ capacity := cap } : entity T) ops).received
        ++ (runOps ({ capacity := cap } : entity T) ops).final.queue
      = (runOps ({ capacity := cap } : entity T) ops).sent ∧
    ((runOps ({ capacity := cap } : entity T) ops).final.queue = [] →
      (runOps ({ capacity := cap } : entity T) ops).received
        = (runOps ({ capacity := cap } : entity T) ops).sent) := by
  have h := runOps_fifo ops ({ capacity := cap } : entity T)
  simp only [show ({ capacity := cap } : entity T).queue = [] from rfl,
    List.nil_append] at h
  exact ⟨h, fun hq => by simpa [hq] using h⟩

/-- C9: `operator>>` is behaviorally equivalent to `receive`: it waits on the
same predicate, returns `true` with exactly the element `receive` would
return (same queue update, same notification) and returns `false` leaving its
argument unchanged exactly when `receive` returns the empty optional. -/
theorem opShiftIn_refines_receive (e : entity T) (v₀ : T) :
    opShiftIn e v₀
      = ((receive e).1.isSome, (receive e).1.getD v₀, (receive e).2.1, (receive e).2.2) := by
  cases hq : e.queue with
  | nil => simp [opShiftIn, receive, hq]
  | cons x xs => simp [opShiftIn, receive, hq]

/-- C8: the channel returned by `timer` delivers exactly one value — the sent
time point — without blocking, after which it is closed and drained, and every
subsequent `receive` returns the ended (empty) result from the same state. -/
theorem timer_yields_once (T : Type) (now : T) :
    recvWait (timer now) = true ∧
    (receive (timer now)).1 = some now ∧
    (receive (timer now)).2.1.closed = true ∧
    (receive (timer now)).2.1.queue = [] ∧
    receive (receive (timer now)).2.1 = (none, (receive (timer now)).2.1, []) := by
  have htimer : timer now
      = { capacity := sizeMax, closed := true, queue := [now] } := by
    simp [timer, send, is_open, sendWait, sizeMax, close]
  refine ⟨?_, ?_, ?_, ?_, ?_⟩ <;> simp [htimer, recvWait, is_open, receive]

/-! ## List index and count helpers -/

theorem getD_set_ne (x d : α) :
    ∀ (l : List α) (i j : Nat), i ≠ j → (l.set i x).getD j d = l.getD j d := by
  intro l
  induction l with
  | nil => intro i j _; rfl
  | cons a t ih =>
      intro i j hij
      cases i with
      | zero =>
          cases j with
          | zero => exact absurd rfl hij
          | succ j => rfl
      | succ i =>
          cases j with
          | zero => rfl
          | succ j => exact ih i j (fun h => hij (by rw [h]))

theorem getD_set_eq (x d : α) :
    ∀ (l : List α) (i : Nat), i < l.length → (l.set i x).getD i d = x := by
  intro l
  induction l with
  | nil => intro i h; exact absurd h (by simp)
  | cons a t ih =>
      intro i h
      cases i with
      | zero => rfl
      | succ i => exact ih i (Nat.lt_of_succ_lt_succ h)

theorem getD_replicate (x d : α) :
    ∀ (n i : Nat), i < n → (List.replicate n x).getD i d = x := by
  intro n
  induction n with
  | zero => intro i h; exact absurd h (Nat.not_lt_zero i)
  | succ n ih =>
      intro i h
      cases i with
      | zero => rfl
      | succ i => exact ih i (Nat.lt_of_succ_lt_succ h)

theorem lt_length_of_getD_ne (d : α) :
    ∀ (l : List α) (i : Nat), l.getD i d ≠ d → i < l.length := by
  intro l
  induction l with
  | nil => intro i h; exact absurd rfl h
  | cons a t ih =>
      intro i h
      cases i with
      | zero => exact Nat.succ_pos _
      | succ i => exact Nat.succ_lt_succ (ih i h)

theorem count_false_set_true :
    ∀ (l : List Bool) (i : Nat), l.getD i true = false →
      (l.set i true).count false + 1 = l.count false := by
  intro l
  induction l with
  | nil => intro i h; exact absurd h (by simp)
  | cons a t ih =>
      intro i hv
      cases i with
      | zero =>
          have ha : a = false := hv
          subst ha
          simp [List.count_cons]
      | succ i =>
          have h2 := ih i hv
          show (a :: t.set i true).count false + 1 = (a :: t).count false
          cases a <;> simp [List.count_cons] <;> omega

theorem count_false_set_true_of_lt :
    ∀ (l : List Bool) (i : Nat), i < l.length → l.getD i false = false →
      (l.set i true).count false + 1 = l.count false := by
  intro l
  induction l with
  | nil => intro i h _; exact absurd h (by simp)
  | cons a t ih =>
      intro i hi hv
      cases i with
      | zero =>
          have ha : a = false := hv
          subst ha
          simp [List.count_cons]
      | succ i =>
          have h2 := ih i (Nat.lt_of_succ_lt_succ hi) hv
          show (a :: t.set i true).count false + 1 = (a :: t).count false
          cases a <;> simp [List.count_cons] <;> omega

theorem count_false_zero_all_true :
    ∀ (l : List Bool), l.count false = 0 → ∀ i, i < l.length → l.getD i false = true := by
  intro l
  induction l with
  | nil => intro _ i h; exact absurd h (by simp)
  | cons a t ih =>
      intro h i hi
      cases a with
      | false => simp [List.count_cons] at h
      | true =>
          cases i with
          | zero => rfl
          | succ i =>
              refine ih ?_ i (Nat.lt_of_succ_lt_succ hi)
              simpa [List.count_cons] using h

theorem exists_false_of_count_pos :
    ∀ (l : List Bool), 0 < l.count false → ∃ i, i < l.length ∧ l.getD i false = false := by
  intro l
  induction l with
  | nil => intro h; simp at h
  | cons a t ih =>
      intro h
      cases a with
      | false => exact ⟨0, Nat.succ_pos _, rfl⟩
      | true =>
          have ht : 0 < t.count false := by simpa [List.count_cons] using h
          obtain ⟨i, hi, hv⟩ := ih ht
          exact ⟨i + 1, Nat.succ_lt_succ hi, hv⟩

theorem set_getD_self :
    ∀ (l : List α) (i : Nat) (d : α), i < l.length → l.set i (l.getD i d) = l := by
  intro l
  induction l with
  | nil => intro i d h; rfl
  | cons a t ih =>
      intro i d h
      cases i with
      | zero => rfl
      | succ i =>
          show a :: t.set i (t.getD i d) = a :: t
          rw [ih i d (Nat.lt_of_succ_lt_succ h)]

/-! ### Branch equations of the polling loop -/

theorem roundLoop_nil (nullable : Bool) (n : Nat) (it : selIter T) (loc : roundLocals) :
    roundLoop nullable n it loc [] = (.outOfFuel it, []) := rfl

theorem roundLoop_cons_skip {it : selIter T} {loc : roundLocals}
    (nullable : Bool) (n s : Nat) (rest : List Nat)
    (h : it.is_closed.getD (dist n s) true = true) :
    roundLoop nullable n it loc (s :: rest) = roundLoop nullable n it loc rest := by
  simp [roundLoop, h, -List.getD_eq_getElem?_getD]

theorem roundLoop_cons_hit {it : selIter T} {loc : roundLocals}
    (nullable : Bool) (n s : Nat) (rest : List Nat) {x : T} {xs : List T}
    (hskip : it.is_closed.getD (dist n s) true = false)
    (hq : (it.chans.getD (dist n s) { }).queue = x :: xs) :
    roundLoop nullable n it loc (s :: rest)
      = (.received (dist n s) x
          { it with chans := it.chans.set (dist n s)
                                ({ it.chans.getD (dist n s) { } with queue := xs }) },
         [dist n s]) := by
  simp [roundLoop, hskip, try_receive, hq, -List.getD_eq_getElem?_getD]

theorem roundLoop_cons_null_vis {it : selIter T} {loc : roundLocals}
    (n s : Nat) (rest : List Nat)
    (hskip : it.is_closed.getD (dist n s) true = false)
    (hq : (it.chans.getD (dist n s) { }).queue = [])
    (hvis : loc.visited.getD (dist n s) false = true)
    (hop : ¬ it.opened = 0) (hnv : ¬ loc.not_visited = 0) :
    roundLoop true n it loc (s :: rest)
      = ((roundLoop true n
            { it with chans := it.chans.set (dist n s) (it.chans.getD (dist n s) { }) }
            loc rest).1,
         dist n s :: (roundLoop true n
            { it with chans := it.chans.set (dist n s) (it.chans.getD (dist n s) { }) }
            loc rest).2) := by
  simp [roundLoop, hskip, try_receive, hq, hvis, hop, hnv, -List.getD_eq_getElem?_getD]

theorem roundLoop_cons_null_new {it : selIter T} {loc : roundLocals}
    (n s : Nat) (rest : List Nat)
    (hskip : it.is_closed.getD (dist n s) true = false)
    (hq : (it.chans.getD (dist n s) { }).queue = [])
    (hvis : loc.visited.getD (dist n s) false = false)
    (hop : ¬ it.opened = 0) (hnv : ¬ loc.not_visited - 1 = 0) :
    roundLoop true n it loc (s :: rest)
      = ((roundLoop true n
            { it with chans := it.chans.set (dist n s) (it.chans.getD (dist n s) { }) }
            ⟨loc.visited.set (dist n s) true, loc.not_visited - 1⟩ rest).1,
         dist n s :: (roundLoop true n
            { it with chans := it.chans.set (dist n s) (it.chans.getD (dist n s) { }) }
            ⟨loc.visited.set (dist n s) true, loc.not_visited - 1⟩ rest).2) := by
  simp [roundLoop, hskip, try_receive, hq, hvis, hop, hnv, -List.getD_eq_getElem?_getD]

theorem roundLoop_cons_null_done {it : selIter T} {loc : roundLocals}
    (n s : Nat) (rest : List Nat)
    (hskip : it.is_closed.getD (dist n s) true = false)
    (hq : (it.chans.getD (dist n s) { }).queue = [])
    (hvis : loc.visited.getD (dist n s) false = false)
    (hop : ¬ it.opened = 0) (hnv : loc.not_visited - 1 = 0) :
    roundLoop true n it loc (s :: rest)
      = (.emptyRound
          { it with chans := it.chans.set (dist n s) (it.chans.getD (dist n s) { }) },
         [dist n s]) := by
  simp [roundLoop, hskip, try_receive, hq, hvis, hop, hnv, -List.getD_eq_getElem?_getD]

theorem roundLoop_cons_live {it : selIter T} {loc : roundLocals}
    (n s : Nat) (rest : List Nat)
    (hskip : it.is_closed.getD (dist n s) true = false)
    (hq : (it.chans.getD (dist n s) { }).queue = [])
    (hopen : is_open (it.chans.getD (dist n s) { }) = true)
    (hop : ¬ it.opened = 0) :
    roundLoop false n it loc (s :: rest)
      = ((roundLoop false n
            { it with chans := it.chans.set (dist n s) (it.chans.getD (dist n s) { }) }
            loc rest).1,
         dist n s :: (roundLoop false n
            { it with chans := it.chans.set (dist n s) (it.chans.getD (dist n s) { }) }
            loc rest).2) := by
  simp [roundLoop, hskip, try_receive, hq, hopen, hop, -List.getD_eq_getElem?_getD]

theorem roundLoop_cons_retire_stop {it : selIter T} {loc : roundLocals}
    (n s : Nat) (rest : List Nat)
    (hskip : it.is_closed.getD (dist n s) true = false)
    (hq : (it.chans.getD (dist n s) { }).queue = [])
    (hopen : is_open (it.chans.getD (dist n s) { }) = false)
    (hop0 : it.opened - 1 = 0) :
    roundLoop false n it loc (s :: rest)
      = (.terminated
          ⟨it.chans.set (dist n s) (it.chans.getD (dist n s) { }),
           it.is_closed.set (dist n s) true, it.opened - 1⟩,
         [dist n s]) := by
  simp [roundLoop, hskip, try_receive, hq, hopen, hop0, -List.getD_eq_getElem?_getD]

theorem roundLoop_cons_retire_go {it : selIter T} {loc : roundLocals}
    (n s : Nat) (rest : List Nat)
    (hskip : it.is_closed.getD (dist n s) true = false)
    (hq : (it.chans.getD (dist n s) { }).queue = [])
    (hopen : is_open (it.chans.getD (dist n s) { }) = false)
    (hop0 : ¬ it.opened - 1 = 0) :
    roundLoop false n it loc (s :: rest)
      = ((roundLoop false n
            ⟨it.chans.set (dist n s) (it.chans.getD (dist n s) { }),
             it.is_closed.set (dist n s) true, it.opened - 1⟩ loc rest).1,
         dist n s :: (roundLoop false n
            ⟨it.chans.set (dist n s) (it.chans.getD (dist n s) { }),
             it.is_closed.set (dist n s) true, it.opened - 1⟩ loc rest).2) := by
  simp [roundLoop, hskip, try_receive, hq, hopen, hop0, -List.getD_eq_getElem?_getD]

theorem roundLoop_cons_null_vis_stop {it : selIter T} {loc : roundLocals}
    (n s : Nat) (rest : List Nat)
    (hskip : it.is_closed.getD (dist n s) true = false)
    (hq : (it.chans.getD (dist n s) { }).queue = [])
    (hvis : loc.visited.getD (dist n s) false = true)
    (hop : it.opened = 0) :
    roundLoop true n it loc (s :: rest)
      = (.terminated
          { it with chans := it.chans.set (dist n s) (it.chans.getD (dist n s) { }) },
         [dist n s]) := by
  simp [roundLoop, hskip, try_receive, hq, hvis, hop, -List.getD_eq_getElem?_getD]

theorem roundLoop_cons_null_new_stop {it : selIter T} {loc : roundLocals}
    (n s : Nat) (rest : List Nat)
    (hskip : it.is_closed.getD (dist n s) true = false)
    (hq : (it.chans.getD (dist n s) { }).queue = [])
    (hvis : loc.visited.getD (dist n s) false = false)
    (hop : it.opened = 0) :
    roundLoop true n it loc (s :: rest)
      = (.terminated
          { it with chans := it.chans.set (dist n s) (it.chans.getD (dist n s) { }) },
         [dist n s]) := by
  simp [roundLoop, hskip, try_receive, hq, hvis, hop, -List.getD_eq_getElem?_getD]

theorem roundLoop_cons_null_vis_done {it : selIter T} {loc : roundLocals}
    (n s : Nat) (rest : List Nat)
    (hskip : it.is_closed.getD (dist n s) true = false)
    (hq : (it.chans.getD (dist n s) { }).queue = [])
    (hvis : loc.visited.getD (dist n s) false = true)
    (hop : ¬ it.opened = 0) (hnv : loc.not_visited = 0) :
    roundLoop true n it loc (s :: rest)
      = (.emptyRound
          { it with chans := it.chans.set (dist n s) (it.chans.getD (dist n s) { }) },
         [dist n s]) := by
  simp [roundLoop, hskip, try_receive, hq, hvis, hop, hnv, -List.getD_eq_getElem?_getD]

theorem roundLoop_cons_live_stop {it : selIter T} {loc : roundLocals}
    (n s : Nat) (rest : List Nat)
    (hskip : it.is_closed.getD (dist n s) true = false)
    (hq : (it.chans.getD (dist n s) { }).queue = [])
    (hopen : is_open (it.chans.getD (dist n s) { }) = true)
    (hop : it.opened = 0) :
    roundLoop false n it loc (s :: rest)
      = (.terminated
          { it with chans := it.chans.set (dist n s) (it.chans.getD (dist n s) { }) },
         [dist n s]) := by
  simp [roundLoop, hskip, try_receive, hq, hopen, hop, -List.getD_eq_getElem?_getD]

/-! ### Round induction lemmas -/

theorem roundLoop_trace_lt (nullable : Bool) (n : Nat) (hn : 0 < n) :
    ∀ (stream : List Nat) (it : selIter T) (loc : roundLocals) (i : Nat),
      i ∈ (roundLoop nullable n it loc stream).2 → i < n := by
  intro stream
  induction stream with
  | nil =>
      intro it loc i h
      rw [roundLoop_nil] at h
      simp at h
  | cons s rest ih =>
      intro it loc i h
      have hidx : dist n s < n := Nat.mod_lt s hn
      cases hskip : it.is_closed.getD (dist n s) true with
      | true =>
          rw [roundLoop_cons_skip nullable n s rest hskip] at h
          exact ih it loc i h
      | false =>
          cases hq : (it.chans.getD (dist n s) ({ } : entity T)).queue with
          | cons x xs =>
              rw [roundLoop_cons_hit nullable n s rest hskip hq] at h
              simp at h
              exact h ▸ hidx
          | nil =>
              cases nullable with
              | true =>
                  cases hvis : loc.visited.getD (dist n s) false with
                  | true =>
                      by_cases hop : it.opened = 0
                      · rw [roundLoop_cons_null_vis_stop n s rest hskip hq hvis hop] at h
                        simp at h
                        exact h ▸ hidx
                      · by_cases hnv : loc.not_visited = 0
                        · rw [roundLoop_cons_null_vis_done n s rest hskip hq hvis hop hnv] at h
                          simp at h
                          exact h ▸ hidx
                        · rw [roundLoop_cons_null_vis n s rest hskip hq hvis hop hnv] at h
                          simp only [List.mem_cons] at h
                          cases h with
                          | inl h => exact h ▸ hidx
                          | inr h => exact ih _ _ i h
                  | false =>
                      by_cases hop : it.opened = 0
                      · rw [roundLoop_cons_null_new_stop n s rest hskip hq hvis hop] at h
                        simp at h
                        exact h ▸ hidx
                      · by_cases hnv : loc.not_visited - 1 = 0
                        · rw [roundLoop_cons_null_done n s rest hskip hq hvis hop hnv] at h
                          simp at h
                          exact h ▸ hidx
                        · rw [roundLoop_cons_null_new n s rest hskip hq hvis hop hnv] at h
                          simp only [List.mem_cons] at h
                          cases h with
                          | inl h => exact h ▸ hidx
                          | inr h => exact ih _ _ i h
              | false =>
                  cases hopen : is_open (it.chans.getD (dist n s) ({ } : entity T)) with
                  | true =>
                      by_cases hop : it.opened = 0
                      · rw [roundLoop_cons_live_stop n s rest hskip hq hopen hop] at h
                        simp at h
                        exact h ▸ hidx
                      · rw [roundLoop_cons_live n s rest hskip hq hopen hop] at h
                        simp only [List.mem_cons] at h
                        cases h with
                        | inl h => exact h ▸ hidx
                        | inr h => exact ih _ _ i h
                  | false =>
                      by_cases hop0 : it.opened - 1 = 0
                      · rw [roundLoop_cons_retire_stop n s rest hskip hq hopen hop0] at h
                        simp at h
                        exact h ▸ hidx
                      · rw [roundLoop_cons_retire_go n s rest hskip hq hopen hop0] at h
                        simp only [List.mem_cons] at h
                        cases h with
                        | inl h => exact h ▸ hidx
                        | inr h => exact ih _ _ i h

theorem roundLoop_retired (nullable : Bool) (n : Nat) :
    ∀ (stream : List Nat) (it : selIter T) (loc : roundLocals) (i : Nat),
      it.is_closed.getD i true = true →
        ((roundLoop nullable n it loc stream).1.iter.is_closed.getD i true = true ∧
         i ∉ (roundLoop nullable n it loc stream).2) := by
  intro stream
  induction stream with
  | nil =>
      intro it loc i hi
      rw [roundLoop_nil]
      exact ⟨hi, by simp⟩
  | cons s rest ih =>
      intro it loc i hi
      cases hskip : it.is_closed.getD (dist n s) true with
      | true =>
          rw [roundLoop_cons_skip nullable n s rest hskip]
          exact ih it loc i hi
      | false =>
          have hne : i ≠ dist n s := by
            intro heq
            rw [heq, hskip] at hi
            exact Bool.noConfusion hi
          have hretire : (it.is_closed.set (dist n s) true).getD i true = true := by
            rw [getD_set_ne true true it.is_closed (dist n s) i (fun heq => hne heq.symm)]
            exact hi
          cases hq : (it.chans.getD (dist n s) ({ } : entity T)).queue with
          | cons x xs =>
              rw [roundLoop_cons_hit nullable n s rest hskip hq]
              exact ⟨hi, by simp [hne]⟩
          | nil =>
              cases nullable with
              | true =>
                  cases hvis : loc.visited.getD (dist n s) false with
                  | true =>
                      by_cases hop : it.opened = 0
                      · rw [roundLoop_cons_null_vis_stop n s rest hskip hq hvis hop]
                        exact ⟨hi, by simp [hne]⟩
                      · by_cases hnv : loc.not_visited = 0
                        · rw [roundLoop_cons_null_vis_done n s rest hskip hq hvis hop hnv]
                          exact ⟨hi, by simp [hne]⟩
                        · rw [roundLoop_cons_null_vis n s rest hskip hq hvis hop hnv]
                          have h2 := ih
                            { it with chans :=
                                it.chans.set (dist n s) (it.chans.getD (dist n s) { }) }
                            loc i hi
                          exact ⟨h2.1,
                            by simp only [List.mem_cons, not_or]; exact ⟨hne, h2.2⟩⟩
                  | false =>
                      by_cases hop : it.opened = 0
                      · rw [roundLoop_cons_null_new_stop n s rest hskip hq hvis hop]
                        exact ⟨hi, by simp [hne]⟩
                      · by_cases hnv : loc.not_visited - 1 = 0
                        · rw [roundLoop_cons_null_done n s rest hskip hq hvis hop hnv]
                          exact ⟨hi, by simp [hne]⟩
                        · rw [roundLoop_cons_null_new n s rest hskip hq hvis hop hnv]
                          have h2 := ih
                            { it with chans :=
                                it.chans.set (dist n s) (it.chans.getD (dist n s) { }) }
                            ⟨loc.visited.set (dist n s) true, loc.not_visited - 1⟩ i hi
                          exact ⟨h2.1,
                            by simp only [List.mem_cons, not_or]; exact ⟨hne, h2.2⟩⟩
              | false =>
                  cases hopen : is_open (it.chans.getD (dist n s) ({ } : entity T)) with
                  | true =>
                      by_cases hop : it.opened = 0
                      · rw [roundLoop_cons_live_stop n s rest hskip hq hopen hop]
                        exact ⟨hi, by simp [hne]⟩
                      · rw [roundLoop_cons_live n s rest hskip hq hopen hop]
                        have h2 := ih
                          { it with chans :=
                              it.chans.set (dist n s) (it.chans.getD (dist n s) { }) }
                          loc i hi
                        exact ⟨h2.1,
                          by simp only [List.mem_cons, not_or]; exact ⟨hne, h2.2⟩⟩
                  | false =>
                      by_cases hop0 : it.opened - 1 = 0
                      · rw [roundLoop_cons_retire_stop n s rest hskip hq hopen hop0]
                        exact ⟨hretire, by simp [hne]⟩
                      · rw [roundLoop_cons_retire_go n s rest hskip hq hopen hop0]
                        have h2 := ih
                          ⟨it.chans.set (dist n s) (it.chans.getD (dist n s) { }),
                           it.is_closed.set (dist n s) true, it.opened - 1⟩
                          loc i hretire
                        exact ⟨h2.1,
                          by simp only [List.mem_cons, not_or]; exact ⟨hne, h2.2⟩⟩

theorem roundLoop_term_iff (n : Nat) :
    ∀ (stream : List Nat) (it : selIter T) (loc : roundLocals),
      selInv n it → 0 < it.opened →
        (selInv n (roundLoop false n it loc stream).1.iter ∧
         ((roundLoop false n it loc stream).1.isTerminated = true ↔
            (roundLoop false n it loc stream).1.iter.opened = 0)) := by
  intro stream
  induction stream with
  | nil =>
      intro it loc hinv hop
      have hop' : ¬ it.opened = 0 := by omega
      rw [roundLoop_nil]
      refine ⟨hinv, ?_⟩
      simp only [roundOutcome.isTerminated, roundOutcome.iter]
      constructor
      · intro h; exact Bool.noConfusion h
      · intro h; exact absurd h hop'
  | cons s rest ih =>
      intro it loc hinv hop
      have hop' : ¬ it.opened = 0 := by omega
      cases hskip : it.is_closed.getD (dist n s) true with
      | true =>
          rw [roundLoop_cons_skip false n s rest hskip]
          exact ih it loc hinv hop
      | false =>
          have hinv₂ : selInv n
              { it with chans := it.chans.set (dist n s) (it.chans.getD (dist n s) { }) } := by
            refine ⟨?_, hinv.2.1, hinv.2.2⟩
            simpa using hinv.1
          cases hq : (it.chans.getD (dist n s) ({ } : entity T)).queue with
          | cons x xs =>
              rw [roundLoop_cons_hit false n s rest hskip hq]
              refine ⟨⟨?_, hinv.2.1, hinv.2.2⟩, ?_⟩
              · simpa [roundOutcome.iter] using hinv.1
              · simp only [roundOutcome.isTerminated, roundOutcome.iter]
                constructor
                · intro h; exact Bool.noConfusion h
                · intro h; exact absurd h hop'
          | nil =>
              cases hopen : is_open (it.chans.getD (dist n s) ({ } : entity T)) with
              | true =>
                  rw [roundLoop_cons_live n s rest hskip hq hopen hop']
                  exact ih _ loc hinv₂ hop
              | false =>
                  have hcount : (it.is_closed.set (dist n s) true).count false + 1
                      = it.is_closed.count false :=
                    count_false_set_true it.is_closed (dist n s) hskip
                  have hinv₃ : selInv n
                      ⟨it.chans.set (dist n s) (it.chans.getD (dist n s) { }),
                       it.is_closed.set (dist n s) true, it.opened - 1⟩ := by
                    refine ⟨by simpa using hinv.1, by simpa using hinv.2.1, ?_⟩
                    have h3 := hinv.2.2
                    show it.opened - 1 = (it.is_closed.set (dist n s) true).count false
                    omega
                  by_cases hop0 : it.opened - 1 = 0
                  · rw [roundLoop_cons_retire_stop n s rest hskip hq hopen hop0]
                    refine ⟨hinv₃, ?_⟩
                    simp only [roundOutcome.isTerminated, roundOutcome.iter]
                    constructor
                    · intro _; exact hop0
                    · intro _; trivial
                  · rw [roundLoop_cons_retire_go n s rest hskip hq hopen hop0]
                    exact ih _ loc hinv₃ (by show 0 < it.opened - 1; omega)

theorem visit_impl_some : ∀ (n i : Nat), i < n → visit_impl n i = some i := by
  intro n
  induction n with
  | zero => intro i h; exact absurd h (Nat.not_lt_zero i)
  | succ n ih =>
      intro i h
      by_cases hi : i = n
      · subst hi; simp [visit_impl]
      · have h2 : i < n := by omega
        simp [visit_impl, hi, ih i h2]

theorem dispatched_none_of_terminated (o : roundOutcome T) (h : o.isTerminated = true) :
    o.dispatched = none := by
  cases o with
  | received i v it => exact Bool.noConfusion h
  | terminated it => rfl
  | emptyRound it => rfl
  | outOfFuel it => rfl

theorem count_false_replicate : ∀ n : Nat, (List.replicate n false).count false = n := by
  intro n
  induction n with
  | zero => rfl
  | succ n ih => simp [List.replicate_succ, List.count_cons, ih]

theorem roundLoop_only_ready (n k : Nat) (v : T) :
    ∀ (stream : List Nat) (it : selIter T) (loc : roundLocals),
      onlyReady n k v it → (∃ s, s ∈ stream ∧ dist n s = k) →
        (roundLoop false n it loc stream).1.dispatched = some (k, v) := by
  intro stream
  induction stream with
  | nil =>
      intro it loc _ hs
      obtain ⟨s, hs, _⟩ := hs
      simp at hs
  | cons s rest ih =>
      intro it loc ho hs
      have hn : 0 < n := Nat.lt_of_le_of_lt (Nat.zero_le k) ho.2.2.2.1
      have hidx : dist n s < n := Nat.mod_lt s hn
      have hskip : it.is_closed.getD (dist n s) true = false := by
        rw [ho.2.1]
        exact getD_replicate false true n (dist n s) hidx
      by_cases hk : dist n s = k
      · have hhead := ho.2.2.2.2.1
        obtain ⟨x, xs, hq⟩ :
            ∃ x xs, (it.chans.getD (dist n s) ({ } : entity T)).queue = x :: xs := by
          rw [hk]
          cases hcase : (it.chans.getD k ({ } : entity T)).queue with
          | nil => rw [hcase] at hhead; exact absurd hhead (by simp)
          | cons a as => exact ⟨a, as, rfl⟩
        rw [← hk] at hhead
        rw [hq] at hhead
        simp at hhead
        rw [roundLoop_cons_hit false n s rest hskip hq]
        simp [roundOutcome.dispatched, hk, hhead]
      · have hq : (it.chans.getD (dist n s) ({ } : entity T)).queue = [] :=
          ho.2.2.2.2.2.1 (dist n s) hidx hk
        have hopen : is_open (it.chans.getD (dist n s) ({ } : entity T)) = true := by
          rw [is_open, ho.2.2.2.2.2.2 (dist n s) hidx]
          rfl
        have hop' : ¬ it.opened = 0 := by rw [ho.2.2.1]; omega
        rw [roundLoop_cons_live n s rest hskip hq hopen hop']
        have ho₂ : onlyReady n k v
            { it with chans := it.chans.set (dist n s) (it.chans.getD (dist n s) { }) } := by
          rw [set_getD_self it.chans (dist n s) { } (by rw [ho.1]; exact hidx)]
          exact ho
        have hs₂ : ∃ t, t ∈ rest ∧ dist n t = k := by
          obtain ⟨t, ht, hdt⟩ := hs
          cases List.mem_cons.mp ht with
          | inl h => exact absurd (h ▸ hdt) hk
          | inr h => exact ⟨t, h, hdt⟩
        exact ih _ loc ho₂ hs₂

theorem roundLoop_empty_tried_all (n : Nat) :
    ∀ (stream : List Nat) (it : selIter T) (loc : roundLocals),
      loc.visited.length = n →
      loc.not_visited = loc.visited.count false →
      (roundLoop true n it loc stream).1.isEmptyRound = true →
        ∀ i, i < n →
          loc.visited.getD i false = true ∨ i ∈ (roundLoop true n it loc stream).2 := by
  intro stream
  induction stream with
  | nil =>
      intro it loc _ _ hout
      rw [roundLoop_nil] at hout
      exact Bool.noConfusion hout
  | cons s rest ih =>
      intro it loc hlen hnv hout i hilt
      cases hskip : it.is_closed.getD (dist n s) true with
      | true =>
          rw [roundLoop_cons_skip true n s rest hskip] at hout ⊢
          exact ih it loc hlen hnv hout i hilt
      | false =>
          have hidxlen : dist n s < loc.visited.length → True := fun _ => trivial
          cases hq : (it.chans.getD (dist n s) ({ } : entity T)).queue with
          | cons x xs =>
              rw [roundLoop_cons_hit true n s rest hskip hq] at hout
              exact Bool.noConfusion hout
          | nil =>
              cases hvis : loc.visited.getD (dist n s) false with
              | true =>
                  by_cases hop : it.opened = 0
                  · rw [roundLoop_cons_null_vis_stop n s rest hskip hq hvis hop] at hout
                    exact Bool.noConfusion hout
                  · by_cases hnv0 : loc.not_visited = 0
                    · rw [roundLoop_cons_null_vis_done n s rest hskip hq hvis hop hnv0]
                      have hcnt : loc.visited.count false = 0 := by omega
                      exact Or.inl (count_false_zero_all_true loc.visited hcnt i
                        (by rw [hlen]; exact hilt))
                    · rw [roundLoop_cons_null_vis n s rest hskip hq hvis hop hnv0] at hout ⊢
                      cases ih _ loc hlen hnv hout i hilt with
                      | inl h => exact Or.inl h
                      | inr h => exact Or.inr (List.mem_cons_of_mem _ h)
              | false =>
                  have hvlt : dist n s < loc.visited.length := by
                    rw [hlen]
                    exact Nat.mod_lt s (Nat.lt_of_le_of_lt (Nat.zero_le i) hilt)
                  have hcnt : (loc.visited.set (dist n s) true).count false + 1
                      = loc.visited.count false :=
                    count_false_set_true_of_lt loc.visited (dist n s) hvlt hvis
                  by_cases hop : it.opened = 0
                  · rw [roundLoop_cons_null_new_stop n s rest hskip hq hvis hop] at hout
                    exact Bool.noConfusion hout
                  · by_cases hnv0 : loc.not_visited - 1 = 0
                    · rw [roundLoop_cons_null_done n s rest hskip hq hvis hop hnv0]
                      by_cases hik : i = dist n s
                      · exact Or.inr (by simp [hik])
                      · have hall : (loc.visited.set (dist n s) true).count false = 0 := by
                          omega
                        have := count_false_zero_all_true _ hall i
                          (by rw [List.length_set, hlen]; exact hilt)
                        rw [getD_set_ne true false loc.visited (dist n s) i
                          (fun h => hik h.symm)] at this
                        exact Or.inl this
                    · rw [roundLoop_cons_null_new n s rest hskip hq hvis hop hnv0] at hout ⊢
                      have hlen₂ : (loc.visited.set (dist n s) true).length = n := by
                        rw [List.length_set]; exact hlen
                      have hnv₂ : loc.not_visited - 1
                          = (loc.visited.set (dist n s) true).count false := by omega
                      cases ih _ ⟨loc.visited.set (dist n s) true, loc.not_visited - 1⟩
                          hlen₂ hnv₂ hout i hilt with
                      | inl h =>
                          by_cases hik : i = dist n s
                          · exact Or.inr (by simp [hik])
                          · rw [getD_set_ne true false loc.visited (dist n s) i
                              (fun heq => hik heq.symm)] at h
                            exact Or.inl h
                      | inr h => exact Or.inr (List.mem_cons_of_mem _ h)

theorem roundLoop_all_empty (n : Nat) :
    ∀ (stream : List Nat) (it : selIter T) (loc : roundLocals),
      noneReady n it →
      loc.visited.length = n →
      loc.not_visited = loc.visited.count false →
      0 < loc.not_visited →
      (∀ i, i < n → loc.visited.getD i false = true ∨ (∃ s, s ∈ stream ∧ dist n s = i)) →
        (roundLoop true n it loc stream).1.isEmptyRound = true := by
  intro stream
  induction stream with
  | nil =>
      intro it loc _ hlen hnv hpos hcov
      obtain ⟨i, hilen, hfalse⟩ := exists_false_of_count_pos loc.visited (by omega)
      cases hcov i (by rw [← hlen]; exact hilen) with
      | inl h => rw [hfalse] at h; exact Bool.noConfusion h
      | inr h => obtain ⟨s, hs, _⟩ := h; simp at hs
  | cons s rest ih =>
      intro it loc hnr hlen hnv hpos hcov
      have hn : 0 < n := hnr.2.2.2.1
      have hidx : dist n s < n := Nat.mod_lt s hn
      have hskip : it.is_closed.getD (dist n s) true = false := by
        rw [hnr.2.1]
        exact getD_replicate false true n (dist n s) hidx
      have hq : (it.chans.getD (dist n s) ({ } : entity T)).queue = [] :=
        hnr.2.2.2.2 (dist n s) hidx
      have hop : ¬ it.opened = 0 := by rw [hnr.2.2.1]; omega
      have hnr₂ : noneReady n
          { it with chans := it.chans.set (dist n s) (it.chans.getD (dist n s) { }) } := by
        rw [set_getD_self it.chans (dist n s) { } (by rw [hnr.1]; exact hidx)]
        exact hnr
      cases hvis : loc.visited.getD (dist n s) false with
      | true =>
          have hnv0 : ¬ loc.not_visited = 0 := by omega
          rw [roundLoop_cons_null_vis n s rest hskip hq hvis hop hnv0]
          refine ih _ loc hnr₂ hlen hnv hpos ?_
          intro i hilt
          cases hcov i hilt with
          | inl h => exact Or.inl h
          | inr h =>
              obtain ⟨t, ht, hdt⟩ := h
              cases List.mem_cons.mp ht with
              | inl heq =>
                  refine Or.inl ?_
                  rw [← hdt, heq]
                  exact hvis
              | inr hrest => exact Or.inr ⟨t, hrest, hdt⟩
      | false =>
          have hvlt : dist n s < loc.visited.length := by rw [hlen]; exact hidx
          have hcnt : (loc.visited.set (dist n s) true).count false + 1
              = loc.visited.count false :=
            count_false_set_true_of_lt loc.visited (dist n s) hvlt hvis
          by_cases hnv0 : loc.not_visited - 1 = 0
          · rw [roundLoop_cons_null_done n s rest hskip hq hvis hop hnv0]
            rfl
          · rw [roundLoop_cons_null_new n s rest hskip hq hvis hop hnv0]
            refine ih _ ⟨loc.visited.set (dist n s) true, loc.not_visited - 1⟩ hnr₂
              (by show (loc.visited.set (dist n s) true).length = n
                  rw [List.length_set]; exact hlen)
              (by show loc.not_visited - 1 = (loc.visited.set (dist n s) true).count false
                  omega)
              (by show 0 < loc.not_visited - 1
                  omega) ?_
            intro i hilt
            by_cases hik : i = dist n s
            · refine Or.inl ?_
              rw [hik]
              exact getD_set_eq true false loc.visited (dist n s) hvlt
            · cases hcov i hilt with
              | inl h =>
                  refine Or.inl ?_
                  rw [getD_set_ne true false loc.visited (dist n s) i
                    (fun heq => hik heq.symm)]
                  exact h
              | inr h =>
                  obtain ⟨t, ht, hdt⟩ := h
                  cases List.mem_cons.mp ht with
                  | inl heq => exact absurd (by rw [← hdt, heq]) hik
                  | inr hrest => exact Or.inr ⟨t, hrest, hdt⟩

/-- C2 counterexample: a nullable round over two open empty channels, driven
by the raw draws `[0, 0, 1]`, probes index 0 twice before ending empty: the
random pick is not restricted to indices untried this round, and the empty
round performs 3 > 2 probes. -/
theorem select_probe_repeats :
    (selectRound true 2 (selInit [({ } : entity Nat), { }]) [0, 0, 1]).2 = [0, 0, 1] ∧
    ¬ (selectRound true 2 (selInit [({ } : entity Nat), { }]) [0, 0, 1]).2.length ≤ 2 ∧
    (selectRound true 2 (selInit [({ } : entity Nat), { }]) [0, 0, 1]).2.count 0 = 2 := by
  refine ⟨by decide, by decide, by decide⟩

/-- C2 corrected: the random pick is made among the indices not permanently
retired — it may repeat an index already tried this round — and the visited
bitset only marks each index tried (at most once) for round accounting: a
nullable round ends empty exactly after every index has been tried at least
once, so an empty round's probe trace contains every channel index and has at
least N probes, not at most N. -/
theorem select_empty_round_covers (n : Nat) (it : selIter T) (stream : List Nat) (i : Nat)
    (hi : i < n)
    (hout : (selectRound true n it stream).1.isEmptyRound = true) :
    i ∈ (selectRound true n it stream).2 ∧ n ≤ (selectRound true n it stream).2.length := by
  have hmem : ∀ j, j < n → j ∈ (selectRound true n it stream).2 := by
    intro j hj
    have hall := roundLoop_empty_tried_all n stream it ⟨List.replicate n false, n⟩
      (by show (List.replicate n false).length = n; simp)
      (by show n = (List.replicate n false).count false
          exact (count_false_replicate n).symm)
      hout j hj
    cases hall with
    | inl h =>
        rw [getD_replicate false false n j hj] at h
        exact Bool.noConfusion h
    | inr h => exact h
  refine ⟨hmem i hi, ?_⟩
  have hsub : Finset.range n ⊆ (selectRound true n it stream).2.toFinset := by
    intro j hj
    rw [List.mem_toFinset]
    exact hmem j (Finset.mem_range.mp hj)
  calc n = (Finset.range n).card := (Finset.card_range n).symm
    _ ≤ (selectRound true n it stream).2.toFinset.card := Finset.card_le_card hsub
    _ ≤ (selectRound true n it stream).2.length := List.toFinset_card_le _

/-- Witness for the amended C2 at the concrete empty round of the
counterexample. -/
theorem select_empty_round_covers_holds :
    0 ∈ (selectRound true 2 (selInit [({ } : entity Nat), { }]) [0, 0, 1]).2 ∧
    2 ≤ (selectRound true 2 (selInit [({ } : entity Nat), { }]) [0, 0, 1]).2.length :=
  select_empty_round_covers 2 (selInit [({ } : entity Nat), { }]) [0, 0, 1] 0
    (by decide) (by decide)

/-- C6: in a non-nullable select round, an index retired as closed-and-drained
stays retired and is never probed again; the iterator bookkeeping invariant
(opened counts the non-retired channels, so each retirement decrements it) is
preserved; the round reports termination exactly when the open count reaches
zero; and a terminated round dispatches no value and makes the iteration stop
(operator!= is false), so no further values or handler calls occur. -/
theorem select_retire_terminate (n : Nat) (it : selIter T) (stream : List Nat) (i : Nat)
    (hinv : selInv n it) (hop : 0 < it.opened)
    (hi : it.is_closed.getD i true = true) :
    (selectRound false n it stream).1.iter.is_closed.getD i true = true ∧
    i ∉ (selectRound false n it stream).2 ∧
    selInv n (selectRound false n it stream).1.iter ∧
    ((selectRound false n it stream).1.isTerminated = true ↔
       (selectRound false n it stream).1.iter.opened = 0) ∧
    ((selectRound false n it stream).1.isTerminated = true →
       (selectRound false n it stream).1.dispatched = none ∧
       iterNe (selectRound false n it stream).1.iter = false) := by
  have hr := roundLoop_retired false n stream it ⟨List.replicate n false, n⟩ i hi
  have ht := roundLoop_term_iff n stream it ⟨List.replicate n false, n⟩ hinv hop
  refine ⟨hr.1, hr.2, ht.1, ht.2, ?_⟩
  intro h
  refine ⟨dispatched_none_of_terminated _ h, ?_⟩
  have h0 := ht.2.mp h
  show iterNe (roundLoop false n it ⟨List.replicate n false, n⟩ stream).1.iter = false
  simp [iterNe, h0]

/-- Witness for C6: two channels, index 0 already retired, index 1 closed and
drained; the single probe retires index 1, the open count reaches zero and the
round terminates without probing index 0. -/
theorem select_retire_terminate_holds :
    (selectRound false 2
        (⟨[({ } : entity Nat), { closed := true }], [true, false], 1⟩ : selIter Nat)
        [1]).1.iter.is_closed.getD 0 true = true ∧
    0 ∉ (selectRound false 2
        (⟨[({ } : entity Nat), { closed := true }], [true, false], 1⟩ : selIter Nat) [1]).2 ∧
    selInv 2 (selectRound false 2
        (⟨[({ } : entity Nat), { closed := true }], [true, false], 1⟩ : selIter Nat)
        [1]).1.iter ∧
    ((selectRound false 2
        (⟨[({ } : entity Nat), { closed := true }], [true, false], 1⟩ : selIter Nat)
        [1]).1.isTerminated = true ↔
       (selectRound false 2
        (⟨[({ } : entity Nat), { closed := true }], [true, false], 1⟩ : selIter Nat)
        [1]).1.iter.opened = 0) ∧
    ((selectRound false 2
        (⟨[({ } : entity Nat), { closed := true }], [true, false], 1⟩ : selIter Nat)
        [1]).1.isTerminated = true →
       (selectRound false 2
        (⟨[({ } : entity Nat), { closed := true }], [true, false], 1⟩ : selIter Nat)
        [1]).1.dispatched = none ∧
       iterNe (selectRound false 2
        (⟨[({ } : entity Nat), { closed := true }], [true, false], 1⟩ : selIter Nat)
        [1]).1.iter = false) :=
  select_retire_terminate 2
    (⟨[({ } : entity Nat), { closed := true }], [true, false], 1⟩ : selIter Nat) [1] 0
    (by refine ⟨rfl, rfl, ?_⟩; decide) (by decide) (by decide)

/-- C10: every draw of the uniform distribution lies in [0, n-1]; every index
the polling loop probes (and hence passes to the visit dispatch) is in range,
and the compile-time recursion applies the functor at exactly that tuple
position — the visit_impl 0 assert(false) fallback is unreachable. -/
theorem select_visit_in_range (nullable : Bool) (n : Nat) (s : Nat)
    (it : selIter T) (stream : List Nat) (i : Nat) (hn : 0 < n)
    (hi : i ∈ (selectRound nullable n it stream).2) :
    dist n s < n ∧ i < n ∧ visit_impl n i = some i := by
  have h1 : i < n :=
    roundLoop_trace_lt nullable n hn stream it ⟨List.replicate n false, n⟩ i hi
  exact ⟨Nat.mod_lt s hn, h1, visit_impl_some n i h1⟩

/-- Witness for C10 at a singleton select whose only probe dispatches. -/
theorem select_visit_in_range_holds :
    dist 1 5 < 1 ∧ 0 < 1 ∧ visit_impl 1 0 = some 0 :=
  select_visit_in_range false 1 5 (selInit [({ queue := [3] } : entity Nat)]) [0] 0
    (by decide) (by decide)

/-- C7: starvation-freedom and default dispatch.  In a non-nullable select
where only channel k ever holds a value, any round whose raw draws eventually
pick k dispatches k's front value (the random source keeps drawing, so a ready
channel is served as soon as its index comes up — no permanent starvation);
and in the handler-dispatch flavor, a round over channels with nothing ready
whose draws try every index ends empty and invokes the no-match (default)
handler exactly once, dispatching no value. -/
theorem select_fair_default (n k : Nat) (v : T) (itA itB : selIter T)
    (streamA streamB : List Nat)
    (hA : onlyReady n k v itA) (hsA : ∃ s, s ∈ streamA ∧ dist n s = k)
    (hB : noneReady n itB) (hcov : ∀ i, i < n → ∃ t, t ∈ streamB ∧ dist n t = i) :
    (selectRound false n itA streamA).1.dispatched = some (k, v) ∧
    handlerRound n itB streamB = (none, 1) := by
  constructor
  · exact roundLoop_only_ready n k v streamA itA ⟨List.replicate n false, n⟩ hA hsA
  · have hemp : (selectRound true n itB streamB).1.isEmptyRound = true := by
      refine roundLoop_all_empty n streamB itB ⟨List.replicate n false, n⟩ hB
        (by show (List.replicate n false).length = n; simp)
        (by show n = (List.replicate n false).count false
            exact (count_false_replicate n).symm)
        (by show 0 < n; exact hB.2.2.2.1) ?_
      intro i hilt
      exact Or.inr (hcov i hilt)
    cases ho : (selectRound true n itB streamB).1 with
    | received a b c => rw [ho] at hemp; exact Bool.noConfusion hemp
    | terminated c => rw [ho] at hemp; exact Bool.noConfusion hemp
    | outOfFuel c => rw [ho] at hemp; exact Bool.noConfusion hemp
    | emptyRound c => simp [handlerRound, ho]

/-- Witness for C7: three channels with only index 1 ready and draws [0, 1];
and three drained channels with draws [0, 1, 2] in the handler flavor. -/
theorem select_fair_default_holds :
    (selectRound false 3 (selInit [({ } : entity Nat), { queue := [5] }, { }])
        [0, 1]).1.dispatched = some (1, 5) ∧
    handlerRound 3 (selInit [({ } : entity Nat), { }, { }]) [0, 1, 2] = (none, 1) :=
  select_fair_default 3 1 5 (selInit [({ } : entity Nat), { queue := [5] }, { }])
    (selInit [({ } : entity Nat), { }, { }]) [0, 1] [0, 1, 2]
    (by decide) (by decide) (by decide) (by decide)

end Chan
